import Mathlib

/-!
Verification of the ReorderQueue packet queue
(`src/network/utils/reorder-queue.h`, class `ns3::ReorderQueue<Item>`).

The queue state is embedded shallowly: the `std::queue<Ptr<Item>>
m_packets` becomes a Lean list (head of the list = front of the queue),
the `uint32_t` fields become naturals, and the `Ptr<Packet> m_held`
pointer (null or an item) becomes an `Option`.  Transported items are
opaque units exposing a byte size (`GetSize`) and an identity
(`GetUid`), modelled by the structure `Pkt`.

The `uint32_t` counters are modelled as `Nat`: in every reachable state
the byte counter is at least as large as any quantity subtracted from
it (it always counts every item physically present, and a held or
popped item is present), so the C++ unsigned subtractions never wrap
and agree with truncated subtraction on `Nat`.
-/

namespace ReorderQueue

/-- Transported item: an opaque unit with an identity (`GetUid`) and a
byte size (`GetSize`). -/
structure Pkt where
  uid : Nat
  psize : Nat
deriving DecidableEq, Repr

/-- The unit of the `QueueSize` attribute `MaxLength`: a limit counted
in packets or in bytes. -/
inductive SizeUnit where
  | packets
  | bytes
deriving DecidableEq, Repr

/-- Configuration attributes of `ReorderQueue`: `MaxLength` (value and
unit), `ReorderDepth`, `InSequenceLength`. -/
structure Config where
  maxSize : Nat
  unit : SizeUnit
  reorderDepth : Nat
  inSequenceLength : Nat
deriving DecidableEq, Repr

/-- The attribute defaults: `QueueSize ("100p")`, `ReorderDepth = 5`,
`InSequenceLength = 3`. -/
def defaultConfig : Config :=
  { maxSize := 100, unit := SizeUnit.packets, reorderDepth := 5, inSequenceLength := 3 }

/-- The mutable state of a `ReorderQueue`: `m_packets`, `m_bytesInQueue`,
`m_holdCount`, `m_inSequenceCount`, `m_held`. -/
structure QState where
  packets : List Pkt
  bytesInQueue : Nat
  holdCount : Nat
  inSequenceCount : Nat
  held : Option Pkt
deriving DecidableEq, Repr

/-- The constructor `ReorderQueue ()`: empty store, all counters zero,
null held pointer. -/
def initState : QState :=
  { packets := [], bytesInQueue := 0, holdCount := 0, inSequenceCount := 0, held := none }

/-- Result of `Enqueue`: the returned boolean, the list of items passed
to `DropBeforeEnqueue` during the call (one entry per drop
notification), and the state after the call. -/
structure EnqResult where
  accepted : Bool
  dropped : List Pkt
  state : QState
deriving DecidableEq, Repr

/-- `ReorderQueue<Item>::Enqueue`.  Rejects (returning `false` after a
`DropBeforeEnqueue` notification) when in packet mode the store already
holds `maxSize` items, or when in byte mode `m_bytesInQueue + GetSize`
reaches `maxSize`; otherwise adds the size to `m_bytesInQueue` and
pushes the item at the back of `m_packets`. -/
def Enqueue (cfg : Config) (s : QState) (item : Pkt) : EnqResult :=
  if cfg.unit = SizeUnit.packets ∧ cfg.maxSize ≤ s.packets.length then
    { accepted := false, dropped := [item], state := s }
  else if cfg.unit = SizeUnit.bytes ∧ cfg.maxSize ≤ s.bytesInQueue + item.psize then
    { accepted := false, dropped := [item], state := s }
  else
    { accepted := true, dropped := [],
      state := { s with bytesInQueue := s.bytesInQueue + item.psize,
                        packets := s.packets ++ [item] } }

/-- The hold assignment inside `Dequeue` (lines 180-184 of the header):
`m_held = m_packets.front (); m_packets.pop (); m_inSequenceCount = 0;
m_holdCount = 0;` where `front` is the current store head and `rest`
the remainder of the store. -/
def holdStep (s : QState) (front : Pkt) (rest : List Pkt) : QState :=
  { s with held := some front, packets := rest, inSequenceCount := 0, holdCount := 0 }

/-- The tail of `Dequeue`'s normal branch (lines 195-206): pop the
current store head `p` (with remainder `rest2`), subtract its size from
`m_bytesInQueue`, then increment `m_holdCount` if `m_held` is non-null
and `m_inSequenceCount` otherwise.  Returns `p`. -/
def popAndCount (s : QState) (p : Pkt) (rest2 : List Pkt) : Option Pkt × QState :=
  let u : QState := { s with packets := rest2, bytesInQueue := s.bytesInQueue - p.psize }
  match s.held with
  | some _ => (some p, { u with holdCount := u.holdCount + 1 })
  | none => (some p, { u with inSequenceCount := u.inSequenceCount + 1 })

/-- The normal (non-release) branch of `Dequeue` (lines 176-207), entered
with store head `front` and remainder `rest`.  If `m_inSequenceCount ==
m_inSequenceLength` the head is moved into `m_held` (see `holdStep`);
if that empties the store the held item is immediately released (held
cleared, its size subtracted from `m_bytesInQueue`) and returned.
Otherwise the new store head is popped and returned via `popAndCount`. -/
def dequeueNormal (cfg : Config) (s : QState) (front : Pkt) (rest : List Pkt) :
    Option Pkt × QState :=
  if s.inSequenceCount = cfg.inSequenceLength then
    let t := holdStep s front rest
    match rest with
    | [] =>
      (some front, { t with held := none, bytesInQueue := t.bytesInQueue - front.psize })
    | p :: rest2 => popAndCount t p rest2
  else
    popAndCount s front rest

/-- `ReorderQueue<Item>::Dequeue`.  Returns null on an empty store.
Otherwise, if `m_holdCount == m_reorderDepth && m_held`, the held item
is released: held cleared, its size subtracted from `m_bytesInQueue`,
both counters reset, the held item returned (the store is untouched).
Otherwise the normal branch `dequeueNormal` runs. -/
def Dequeue (cfg : Config) (s : QState) : Option Pkt × QState :=
  match s.packets with
  | [] => (none, s)
  | front :: rest =>
    match s.held with
    | some q =>
      if s.holdCount = cfg.reorderDepth then
        (some q, { s with held := none, bytesInQueue := s.bytesInQueue - q.psize,
                          inSequenceCount := 0, holdCount := 0 })
      else
        dequeueNormal cfg s front rest
    | none => dequeueNormal cfg s front rest

/-- Modelled from the spec: `ReorderQueue<Item>::Remove` delegates to
`Queue<Item>::DoRemove (GetContainer().begin())`, and the base class
`Queue<Item>` is not part of this repository's sources.  The spec
records the observed behavior: Remove unconditionally evicts and
returns the current store head, independent of the reordering state
machine (no interaction with `m_held`, `m_holdCount`,
`m_inSequenceCount`), and does not adjust the byte-accounting counter
`m_bytesInQueue`. -/
def Remove (s : QState) : Option Pkt × QState :=
  match s.packets with
  | [] => (none, s)
  | p :: rest => (some p, { s with packets := rest })

/-- One operation applied to the queue by a caller. -/
inductive Op where
  | enq : Pkt → Op
  | deq : Op
  | rem : Op
deriving DecidableEq, Repr

/-- The state after one operation. -/
def step (cfg : Config) (s : QState) (op : Op) : QState :=
  match op with
  | Op.enq p => (Enqueue cfg s p).state
  | Op.deq => (Dequeue cfg s).2
  | Op.rem => (Remove s).2

/-- The state after a sequence of operations. -/
def run (cfg : Config) (s : QState) : List Op → QState
  | [] => s
  | op :: ops => run cfg (step cfg s op) ops

/-- The items an operation hands back to the caller (zero or one, from
`Dequeue` or `Remove`). -/
def stepOut (cfg : Config) (s : QState) (op : Op) : List Pkt :=
  match op with
  | Op.enq _ => []
  | Op.deq => (Dequeue cfg s).1.toList
  | Op.rem => (Remove s).1.toList

/-- The items an operation admits into the queue (zero or one, from an
accepted `Enqueue`). -/
def stepAcc (cfg : Config) (s : QState) (op : Op) : List Pkt :=
  match op with
  | Op.enq p => if (Enqueue cfg s p).accepted then [p] else []
  | Op.deq => []
  | Op.rem => []

/-- All items returned to callers over a sequence of operations. -/
def outputs (cfg : Config) (s : QState) : List Op → List Pkt
  | [] => []
  | op :: ops => stepOut cfg s op ++ outputs cfg (step cfg s op) ops

/-- All items accepted by `Enqueue` over a sequence of operations. -/
def accepted (cfg : Config) (s : QState) : List Op → List Pkt
  | [] => []
  | op :: ops => stepAcc cfg s op ++ accepted cfg (step cfg s op) ops

/-- Results of `n` successive `Dequeue` calls, together with the final
state. -/
def dequeueN (cfg : Config) (s : QState) : Nat → List (Option Pkt) × QState
  | 0 => ([], s)
  | n + 1 =>
    let r := Dequeue cfg s
    let rs := dequeueN cfg r.2 n
    (r.1 :: rs.1, rs.2)

/-- A list of items viewed as a multiset (order forgotten). -/
def toMS (l : List Pkt) : Multiset Pkt :=
  (l : Multiset Pkt)

/-- The items logically inside the queue: store contents plus the held
item, as a multiset. -/
def contents (s : QState) : Multiset Pkt :=
  toMS s.packets + toMS s.held.toList

/-- Total byte size of a list of items. -/
def sumSizes (l : List Pkt) : Nat :=
  (l.map Pkt.psize).sum

/-- Byte size of the held item (0 when the held slot is empty). -/
def heldSize (s : QState) : Nat :=
  match s.held with
  | some q => q.psize
  | none => 0

/-- Invariant candidate: while an item is held, `m_inSequenceCount`
is zero (it was reset when the hold was created and only
`m_holdCount` is incremented while the hold lasts). -/
def HeldInv (s : QState) : Prop :=
  s.held ≠ none → s.inSequenceCount = 0

/-- Invariant candidate: while the held slot is empty, `m_holdCount`
is zero. -/
def HoldZeroInv (s : QState) : Prop :=
  s.held = none → s.holdCount = 0

/-- Invariant candidate: the byte counter equals the bytes physically
in the store plus the bytes of the held item. -/
def BytesInv (s : QState) : Prop :=
  s.bytesInQueue = sumSizes s.packets + heldSize s

/-- Test items A..F (arbitrary distinct identities, 100 bytes each). -/
def pA : Pkt := ⟨1, 100⟩

/-- Test item B. -/
def pB : Pkt := ⟨2, 100⟩

/-- Test item C. -/
def pC : Pkt := ⟨3, 100⟩

/-- Test item D. -/
def pD : Pkt := ⟨4, 100⟩

/-- Test item E. -/
def pE : Pkt := ⟨5, 100⟩

/-- Test item F. -/
def pF : Pkt := ⟨6, 100⟩

/-- Test item G (5 bytes). -/
def pG : Pkt := ⟨7, 5⟩

/-- Enqueue A,B,C,D,E,F in order. -/
def enq6 : List Op :=
  [Op.enq pA, Op.enq pB, Op.enq pC, Op.enq pD, Op.enq pE, Op.enq pF]

/-- Enqueue A..E, then dequeue four times.  Under the default
configuration this reaches a state with an empty store and item D
still held. -/
def stuckOps : List Op :=
  [Op.enq pA, Op.enq pB, Op.enq pC, Op.enq pD, Op.enq pE,
   Op.deq, Op.deq, Op.deq, Op.deq]

theorem sumSizes_cons (p : Pkt) (l : List Pkt) :
    sumSizes (p :: l) = p.psize + sumSizes l := by
  simp [sumSizes]

theorem dequeue_empty (cfg : Config) (s : QState) (h : s.packets = []) :
    Dequeue cfg s = (none, s) := by
  unfold Dequeue
  rw [h]

theorem remove_empty (s : QState) (h : s.packets = []) :
    Remove s = (none, s) := by
  unfold Remove
  rw [h]

/-- From a state whose store is empty, any sequence of Dequeue and
Remove operations returns nothing and leaves the state unchanged. -/
theorem drained_no_outputs (cfg : Config) (s : QState) (h : s.packets = []) :
    ∀ ops : List Op, (∀ op ∈ ops, op = Op.deq ∨ op = Op.rem) →
      outputs cfg s ops = [] ∧ run cfg s ops = s := by
  intro ops
  induction ops with
  | nil => intro _; exact ⟨rfl, rfl⟩
  | cons op ops ih =>
    intro hops
    have hop := hops op (List.mem_cons_self op ops)
    have hrest : ∀ o ∈ ops, o = Op.deq ∨ o = Op.rem := by
      intro o ho
      exact hops o (List.mem_cons_of_mem op ho)
    rcases hop with rfl | rfl
    · have hstep : step cfg s Op.deq = s := by
        simp [step, dequeue_empty cfg s h]
      have hout : stepOut cfg s Op.deq = [] := by
        simp [stepOut, dequeue_empty cfg s h]
      constructor
      · simp [outputs, hout, hstep, (ih hrest).1]
      · simp [run, hstep, (ih hrest).2]
    · have hstep : step cfg s Op.rem = s := by
        simp [step, remove_empty s h]
      have hout : stepOut cfg s Op.rem = [] := by
        simp [stepOut, remove_empty s h]
      constructor
      · simp [outputs, hout, hstep, (ih hrest).1]
      · simp [run, hstep, (ih hrest).2]

/-- Enqueue either leaves the state unchanged (rejection) or appends
the item and adds its size to the byte counter (acceptance). -/
theorem enqueue_state_cases (cfg : Config) (s : QState) (item : Pkt) :
    ((Enqueue cfg s item).accepted = false ∧ (Enqueue cfg s item).state = s) ∨
    ((Enqueue cfg s item).accepted = true ∧
      (Enqueue cfg s item).state =
        ⟨s.packets ++ [item], s.bytesInQueue + item.psize,
         s.holdCount, s.inSequenceCount, s.held⟩) := by
  unfold Enqueue
  split_ifs <;> simp

/-- Exhaustive case analysis of one `Dequeue` call: empty store,
release of the held item, hold trigger that drains the store, hold
trigger followed by a pop, normal pop while an item is held, and
normal pop with the held slot empty. -/
theorem dequeue_state_cases (cfg : Config) (s : QState) :
    (s.packets = [] ∧ Dequeue cfg s = (none, s)) ∨
    (∃ q, s.held = some q ∧ s.holdCount = cfg.reorderDepth ∧ s.packets ≠ [] ∧
      Dequeue cfg s =
        (some q, ⟨s.packets, s.bytesInQueue - q.psize, 0, 0, none⟩)) ∨
    (∃ front, s.packets = [front] ∧
      s.inSequenceCount = cfg.inSequenceLength ∧
      ¬(s.holdCount = cfg.reorderDepth ∧ s.held.isSome = true) ∧
      Dequeue cfg s =
        (some front, ⟨[], s.bytesInQueue - front.psize, 0, 0, none⟩)) ∨
    (∃ front p rest2, s.packets = front :: p :: rest2 ∧
      s.inSequenceCount = cfg.inSequenceLength ∧
      ¬(s.holdCount = cfg.reorderDepth ∧ s.held.isSome = true) ∧
      Dequeue cfg s =
        (some p, ⟨rest2, s.bytesInQueue - p.psize, 1, 0, some front⟩)) ∨
    (∃ front rest q, s.packets = front :: rest ∧ s.held = some q ∧
      s.holdCount ≠ cfg.reorderDepth ∧
      s.inSequenceCount ≠ cfg.inSequenceLength ∧
      Dequeue cfg s =
        (some front,
          ⟨rest, s.bytesInQueue - front.psize, s.holdCount + 1,
           s.inSequenceCount, some q⟩)) ∨
    (∃ front rest, s.packets = front :: rest ∧ s.held = none ∧
      s.inSequenceCount ≠ cfg.inSequenceLength ∧
      Dequeue cfg s =
        (some front,
          ⟨rest, s.bytesInQueue - front.psize, s.holdCount,
           s.inSequenceCount + 1, none⟩)) := by
  obtain ⟨pk, b, hc, isc, hd⟩ := s
  rcases pk with _ | ⟨front, rest⟩
  · exact Or.inl ⟨rfl, rfl⟩
  rcases hd with _ | q
  · by_cases hisc : isc = cfg.inSequenceLength
    · rcases rest with _ | ⟨p, rest2⟩
      · refine Or.inr (Or.inr (Or.inl ⟨front, rfl, hisc, ?_, ?_⟩))
        · simp
        · simp [Dequeue, dequeueNormal, holdStep, hisc]
      · refine Or.inr (Or.inr (Or.inr (Or.inl ⟨front, p, rest2, rfl, hisc, ?_, ?_⟩)))
        · simp
        · simp [Dequeue, dequeueNormal, holdStep, popAndCount, hisc]
    · refine Or.inr (Or.inr (Or.inr (Or.inr (Or.inr ⟨front, rest, rfl, rfl, hisc, ?_⟩))))
      simp [Dequeue, dequeueNormal, popAndCount, hisc]
  · by_cases hhc : hc = cfg.reorderDepth
    · refine Or.inr (Or.inl ⟨q, rfl, hhc, by simp, ?_⟩)
      simp [Dequeue, hhc]
    · by_cases hisc : isc = cfg.inSequenceLength
      · rcases rest with _ | ⟨p, rest2⟩
        · refine Or.inr (Or.inr (Or.inl ⟨front, rfl, hisc, ?_, ?_⟩))
          · simp [hhc]
          · simp [Dequeue, dequeueNormal, holdStep, hhc, hisc]
        · refine Or.inr (Or.inr (Or.inr (Or.inl ⟨front, p, rest2, rfl, hisc, ?_, ?_⟩)))
          · simp [hhc]
          · simp [Dequeue, dequeueNormal, holdStep, popAndCount, hhc, hisc]
      · refine Or.inr (Or.inr (Or.inr (Or.inr (Or.inl
          ⟨front, rest, q, rfl, rfl, hhc, hisc, ?_⟩))))
        simp [Dequeue, dequeueNormal, popAndCount, hhc, hisc]

/-- Remove keeps every field except the store, which loses its head. -/
theorem remove_state (s : QState) :
    (Remove s).2 = { s with packets := s.packets.tail } := by
  obtain ⟨pk, b, hc, isc, hd⟩ := s
  rcases pk with _ | ⟨p, rest⟩ <;> simp [Remove]

theorem toMS_nil : toMS [] = 0 :=
  rfl

theorem toMS_cons (a : Pkt) (l : List Pkt) : toMS (a :: l) = {a} + toMS l := by
  unfold toMS
  rw [← Multiset.cons_coe, ← Multiset.singleton_add]

theorem toMS_append (l1 l2 : List Pkt) : toMS (l1 ++ l2) = toMS l1 + toMS l2 :=
  (Multiset.coe_add l1 l2).symm

/-- While an item is held, `m_inSequenceCount` stays zero: preserved by
every operation. -/
theorem heldInv_step (cfg : Config) (s : QState) (op : Op) (h : HeldInv s) :
    HeldInv (step cfg s op) := by
  cases op with
  | enq p =>
    rcases enqueue_state_cases cfg s p with ⟨_, heq⟩ | ⟨_, heq⟩ <;>
      simp only [step, heq] <;> exact fun hn => h hn
  | rem =>
    simp only [step, remove_state]
    exact fun hn => h hn
  | deq =>
    rcases dequeue_state_cases cfg s with
        ⟨hp, heq⟩ | ⟨q, hq, hhc, hne, heq⟩ | ⟨front, hp, hisc, hcond, heq⟩ |
        ⟨front, p, rest2, hp, hisc, hcond, heq⟩ |
        ⟨front, rest, q, hp, hq, hhc, hisc, heq⟩ | ⟨front, rest, hp, hq, hisc, heq⟩
    · simpa [step, heq] using h
    · simp [step, heq, HeldInv]
    · simp [step, heq, HeldInv]
    · simp [step, heq, HeldInv]
    · simp only [step, heq]
      exact fun _ => h (by simp [hq])
    · simp [step, heq, HeldInv]

/-- While the held slot is empty, `m_holdCount` stays zero: preserved
by every operation. -/
theorem holdZero_step (cfg : Config) (s : QState) (op : Op) (h : HoldZeroInv s) :
    HoldZeroInv (step cfg s op) := by
  cases op with
  | enq p =>
    rcases enqueue_state_cases cfg s p with ⟨_, heq⟩ | ⟨_, heq⟩ <;>
      simp only [step, heq] <;> exact fun hn => h hn
  | rem =>
    simp only [step, remove_state]
    exact fun hn => h hn
  | deq =>
    rcases dequeue_state_cases cfg s with
        ⟨hp, heq⟩ | ⟨q, hq, hhc, hne, heq⟩ | ⟨front, hp, hisc, hcond, heq⟩ |
        ⟨front, p, rest2, hp, hisc, hcond, heq⟩ |
        ⟨front, rest, q, hp, hq, hhc, hisc, heq⟩ | ⟨front, rest, hp, hq, hisc, heq⟩
    · simpa [step, heq] using h
    · simp [step, heq, HoldZeroInv]
    · simp [step, heq, HoldZeroInv]
    · simp [step, heq, HoldZeroInv]
    · simp [step, heq, HoldZeroInv]
    · simp only [step, heq]
      exact fun _ => h hq

/-- The two counters never pass their configured bounds (the depth
bound needs `reorderDepth` positive: a freshly created hold starts its
first bypass with `m_holdCount = 1`). -/
theorem countInv_step (cfg : Config) (s : QState) (op : Op)
    (hdep : 1 ≤ cfg.reorderDepth)
    (h1 : s.inSequenceCount ≤ cfg.inSequenceLength)
    (h2 : s.holdCount ≤ cfg.reorderDepth) :
    (step cfg s op).inSequenceCount ≤ cfg.inSequenceLength ∧
    (step cfg s op).holdCount ≤ cfg.reorderDepth := by
  cases op with
  | enq p =>
    rcases enqueue_state_cases cfg s p with ⟨_, heq⟩ | ⟨_, heq⟩ <;>
      simp only [step, heq] <;> exact ⟨h1, h2⟩
  | rem =>
    simp only [step, remove_state]
    exact ⟨h1, h2⟩
  | deq =>
    rcases dequeue_state_cases cfg s with
        ⟨hp, heq⟩ | ⟨q, hq, hhc, hne, heq⟩ | ⟨front, hp, hisc, hcond, heq⟩ |
        ⟨front, p, rest2, hp, hisc, hcond, heq⟩ |
        ⟨front, rest, q, hp, hq, hhc, hisc, heq⟩ | ⟨front, rest, hp, hq, hisc, heq⟩
    · simpa [step, heq] using ⟨h1, h2⟩
    · simp [step, heq]
    · simp [step, heq]
    · simp only [step, heq]
      exact ⟨Nat.zero_le _, hdep⟩
    · simp only [step, heq]
      exact ⟨h1, by omega⟩
    · simp only [step, heq]
      exact ⟨by omega, h2⟩

/-- With a positive `inSequenceLength`, a hold trigger can only fire
while the held slot is empty (otherwise `m_inSequenceCount` would be
both zero and equal to `m_inSequenceLength`). -/
theorem held_none_of_trigger (cfg : Config) (s : QState)
    (hlen : 1 ≤ cfg.inSequenceLength) (hheld : HeldInv s)
    (hisc : s.inSequenceCount = cfg.inSequenceLength) :
    s.held = none := by
  rcases hh : s.held with _ | q
  · rfl
  · have h0 : s.inSequenceCount = 0 := hheld (by simp [hh])
    omega

/-- The byte counter tracks store plus held bytes across every
Enqueue and Dequeue (`Remove` excluded; it never touches the byte
counter). -/
theorem bytesInv_step (cfg : Config) (s : QState) (op : Op)
    (hlen : 1 ≤ cfg.inSequenceLength) (hop : op ≠ Op.rem)
    (hheld : HeldInv s) (h : BytesInv s) :
    BytesInv (step cfg s op) := by
  cases op with
  | rem => exact absurd rfl hop
  | enq p =>
    rcases enqueue_state_cases cfg s p with ⟨_, heq⟩ | ⟨_, heq⟩
    · simpa [step, heq] using h
    · simp only [step, heq]
      simp [BytesInv, sumSizes, heldSize] at h ⊢
      omega
  | deq =>
    rcases dequeue_state_cases cfg s with
        ⟨hp, heq⟩ | ⟨q, hq, hhc, hne, heq⟩ | ⟨front, hp, hisc, hcond, heq⟩ |
        ⟨front, p, rest2, hp, hisc, hcond, heq⟩ |
        ⟨front, rest, q, hp, hq, hhc, hisc, heq⟩ | ⟨front, rest, hp, hq, hisc, heq⟩
    · simpa [step, heq] using h
    · simp only [step, heq]
      simp [BytesInv, heldSize, hq] at h ⊢
      omega
    · have hnone : s.held = none := held_none_of_trigger cfg s hlen hheld hisc
      simp only [step, heq]
      simp [BytesInv, heldSize, hnone, hp, sumSizes] at h ⊢
      omega
    · have hnone : s.held = none := held_none_of_trigger cfg s hlen hheld hisc
      simp only [step, heq]
      simp [BytesInv, heldSize, hnone, hp, sumSizes] at h ⊢
      omega
    · simp only [step, heq]
      simp [BytesInv, heldSize, hq, hp, sumSizes] at h ⊢
      omega
    · simp only [step, heq]
      simp [BytesInv, heldSize, hq, hp, sumSizes] at h ⊢
      omega

/-- One-step conservation: what an operation returns to the caller
plus what remains inside equals what it accepted plus what was inside
before. -/
theorem conservation_step (cfg : Config) (s : QState) (op : Op)
    (hlen : 1 ≤ cfg.inSequenceLength) (hheld : HeldInv s) :
    toMS (stepOut cfg s op) + contents (step cfg s op)
      = toMS (stepAcc cfg s op) + contents s := by
  cases op with
  | enq p =>
    rcases enqueue_state_cases cfg s p with ⟨hacc, heq⟩ | ⟨hacc, heq⟩
    · simp [stepOut, stepAcc, step, heq, hacc, toMS_nil]
    · simp [stepOut, stepAcc, step, heq, hacc, contents, toMS_nil, toMS_cons,
        toMS_append]
      try rw [← Multiset.singleton_add]
      try abel
  | rem =>
    rcases hp : s.packets with _ | ⟨p, rest⟩
    · simp [stepOut, stepAcc, step, remove_empty s hp, toMS_nil]
    · have heq : Remove s = (some p, { s with packets := rest }) := by
        unfold Remove
        rw [hp]
      simp [stepOut, stepAcc, step, heq, contents, hp, toMS_nil, toMS_cons]
      try rw [← Multiset.singleton_add]
      try abel
  | deq =>
    rcases dequeue_state_cases cfg s with
        ⟨hp, heq⟩ | ⟨q, hq, hhc, hne, heq⟩ | ⟨front, hp, hisc, hcond, heq⟩ |
        ⟨front, p, rest2, hp, hisc, hcond, heq⟩ |
        ⟨front, rest, q, hp, hq, hhc, hisc, heq⟩ | ⟨front, rest, hp, hq, hisc, heq⟩
    · simp [stepOut, stepAcc, step, heq, toMS_nil]
    · simp [stepOut, stepAcc, step, heq, contents, hq, toMS_nil, toMS_cons]
      try rw [← Multiset.singleton_add]
      try abel
    · have hnone : s.held = none := held_none_of_trigger cfg s hlen hheld hisc
      simp [stepOut, stepAcc, step, heq, contents, hnone, hp, toMS_nil, toMS_cons]
    · have hnone : s.held = none := held_none_of_trigger cfg s hlen hheld hisc
      simp [stepOut, stepAcc, step, heq, contents, hnone, hp, toMS_nil, toMS_cons]
      try rw [← Multiset.singleton_add]
      try abel
    · simp [stepOut, stepAcc, step, heq, contents, hq, hp, toMS_nil, toMS_cons]
      try rw [← Multiset.singleton_add]
      try abel
    · simp [stepOut, stepAcc, step, heq, contents, hq, hp, toMS_nil, toMS_cons]
      try rw [← Multiset.singleton_add]
      try abel

/-- `HeldInv` holds in every reachable state. -/
theorem heldInv_run (cfg : Config) (ops : List Op) :
    ∀ s, HeldInv s → HeldInv (run cfg s ops) := by
  induction ops with
  | nil => intro s h; exact h
  | cons op ops ih => intro s h; exact ih (step cfg s op) (heldInv_step cfg s op h)

/-- Multi-step conservation of items, from any state satisfying
`HeldInv`, for configurations with a positive `inSequenceLength`. -/
theorem conservation_run (cfg : Config) (hlen : 1 ≤ cfg.inSequenceLength) :
    ∀ (ops : List Op) (s : QState), HeldInv s →
      toMS (outputs cfg s ops) + contents (run cfg s ops)
        = toMS (accepted cfg s ops) + contents s := by
  intro ops
  induction ops with
  | nil => intro s _; simp [outputs, accepted, run, toMS_nil]
  | cons op ops ih =>
    intro s h
    have h1 := conservation_step cfg s op hlen h
    have h2 := ih (step cfg s op) (heldInv_step cfg s op h)
    simp only [outputs, accepted, run, toMS_append]
    rw [add_assoc, h2, add_left_comm, h1]
    abel

/-- C1 counterexample: with the default configuration, enqueueing
A,B,C,D,E,F and dequeueing six times does NOT return A, B, D, E, F, C
as the claim states.  (The hold trigger compares `m_inSequenceCount`
to `m_inSequenceLength` before incrementing, so the hold happens on
the fourth call, not the third, and it holds D, not C; the store then
drains before `m_holdCount` reaches 5, so D is never released.) -/
theorem C1_counterexample :
    (dequeueN defaultConfig (run defaultConfig initState enq6) 6).1 ≠
      [some pA, some pB, some pD, some pE, some pF, some pC] := by
  decide

/-- C1 amended: with the default configuration, after enqueueing
A,B,C,D,E,F in order, six successive Dequeue calls return A, B, C, E,
F, and then no item: the fourth call holds D (posting E instead), the
fifth returns F, and the sixth finds the store empty while D stays in
the held slot. -/
theorem C1_dequeue_trace :
    (dequeueN defaultConfig (run defaultConfig initState enq6) 6).1 =
      [some pA, some pB, some pC, some pE, some pF, none] := by
  decide

/-- C3 counterexample: a reachable state (enqueue A..E, dequeue four
times, default configuration) has an empty store while the held slot
still holds D, and the next Dequeue returns no item even though the
held slot is non-empty. -/
theorem C3_counterexample :
    (run defaultConfig initState stuckOps).packets = [] ∧
    (run defaultConfig initState stuckOps).held = some pD ∧
    (Dequeue defaultConfig (run defaultConfig initState stuckOps)).1 = none := by
  decide

/-- C3 amended: whenever Dequeue finds the store empty it returns "no
item available" with no state change — but the held slot may be
non-empty at that point (a hold is undone in the same call only when
creating it empties the store; later normal pops can drain the store
while an item stays held). -/
theorem C3_empty_dequeue (cfg : Config) (s : QState) (h : s.packets = []) :
    Dequeue cfg s = (none, s) :=
  dequeue_empty cfg s h

/-- Witness for C3 amended at the initial state. -/
theorem C3_empty_dequeue_witness :
    Dequeue defaultConfig initState = (none, initState) :=
  C3_empty_dequeue defaultConfig initState rfl

/-- C5: Enqueue accepts an item iff, in packet mode, the pre-call
store length is strictly below the limit, and in byte mode, the
pre-call byte counter plus the item's size is strictly below the limit
(reaching the byte limit exactly is a rejection). -/
theorem C5_admission (cfg : Config) (s : QState) (item : Pkt) :
    (Enqueue cfg s item).accepted = true ↔
      (match cfg.unit with
       | SizeUnit.packets => s.packets.length < cfg.maxSize
       | SizeUnit.bytes => s.bytesInQueue + item.psize < cfg.maxSize) := by
  unfold Enqueue
  rcases hu : cfg.unit <;> split_ifs with h1 h2 <;> simp_all

/-- C7: Remove evicts and returns the current store head and leaves
`m_held`, `m_holdCount`, `m_inSequenceCount`, and the byte counter
unchanged.  (Settled against the spec-modelled `Remove`, since
`Queue<Item>::DoRemove` is not part of this repository's sources.) -/
theorem C7_remove (s : QState) :
    (Remove s).1 = s.packets.head? ∧
    (Remove s).2.packets = s.packets.tail ∧
    (Remove s).2.bytesInQueue = s.bytesInQueue ∧
    (Remove s).2.held = s.held ∧
    (Remove s).2.holdCount = s.holdCount ∧
    (Remove s).2.inSequenceCount = s.inSequenceCount := by
  unfold Remove
  rcases hp : s.packets with _ | ⟨p, rest⟩ <;> simp [hp]

/-- C8: in a Dequeue call in which the hold trigger fires
(`m_inSequenceCount == m_inSequenceLength` in the normal branch) and
holding the head leaves the store empty, the held slot is cleared, the
byte counter drops by that item's size, both counters are reset, and
that same item is returned by the same call. -/
theorem C8_drain_release (cfg : Config) (s : QState) (front : Pkt)
    (hp : s.packets = [front])
    (ht : s.inSequenceCount = cfg.inSequenceLength)
    (hr : ¬(s.holdCount = cfg.reorderDepth ∧ s.held.isSome = true)) :
    Dequeue cfg s =
      (some front,
        { packets := [], bytesInQueue := s.bytesInQueue - front.psize,
          holdCount := 0, inSequenceCount := 0, held := none }) := by
  obtain ⟨pk, b, hc, isc, hd⟩ := s
  simp only at hp ht hr ⊢
  subst hp
  cases hd with
  | none => simp [Dequeue, dequeueNormal, holdStep, ht]
  | some q =>
    have hne : hc ≠ cfg.reorderDepth := fun hEq => hr ⟨hEq, rfl⟩
    simp [Dequeue, dequeueNormal, holdStep, ht, hne]

/-- Witness for C8: a one-item store with the trigger about to fire. -/
theorem C8_drain_release_witness :
    Dequeue defaultConfig
        { packets := [pG], bytesInQueue := 5, holdCount := 0,
          inSequenceCount := 3, held := none } =
      (some pG,
        { packets := [], bytesInQueue := 0, holdCount := 0,
          inSequenceCount := 0, held := none }) :=
  C8_drain_release defaultConfig _ pG rfl rfl (by decide)

/-- C9: whenever Enqueue rejects an item it invokes exactly one drop
notification (`DropBeforeEnqueue`) for that item and leaves the whole
queue state unchanged. -/
theorem C9_reject_no_change (cfg : Config) (s : QState) (item : Pkt)
    (h : (Enqueue cfg s item).accepted = false) :
    (Enqueue cfg s item).dropped = [item] ∧ (Enqueue cfg s item).state = s := by
  unfold Enqueue at h ⊢
  split_ifs at h ⊢ <;> simp_all

/-- Witness for C9: the spec's rejection scenario (limit 2 packets,
store already holding A and B, C rejected). -/
theorem C9_reject_witness :
    (Enqueue ⟨2, SizeUnit.packets, 5, 3⟩
        { packets := [pA, pB], bytesInQueue := 200, holdCount := 0,
          inSequenceCount := 0, held := none } pC).dropped = [pC] ∧
    (Enqueue ⟨2, SizeUnit.packets, 5, 3⟩
        { packets := [pA, pB], bytesInQueue := 200, holdCount := 0,
          inSequenceCount := 0, held := none } pC).state =
      { packets := [pA, pB], bytesInQueue := 200, holdCount := 0,
        inSequenceCount := 0, held := none } :=
  C9_reject_no_change _ _ _ (by decide)

/-- C2 counterexample: item D is accepted by Enqueue but is never
returned by any later Dequeue or Remove.  After enqueueing A..E and
dequeueing four times (defaults), D sits in the held slot with the
store empty, and every continuation made of Dequeue and Remove calls
returns nothing at all. -/
theorem C2_counterexample :
    accepted defaultConfig initState stuckOps = [pA, pB, pC, pD, pE] ∧
    outputs defaultConfig initState stuckOps = [pA, pB, pC, pE] ∧
    (run defaultConfig initState stuckOps).packets = [] ∧
    (run defaultConfig initState stuckOps).held = some pD ∧
    ∀ ops : List Op, (∀ op ∈ ops, op = Op.deq ∨ op = Op.rem) →
      outputs defaultConfig (run defaultConfig initState stuckOps) ops = [] := by
  refine ⟨by decide, by decide, by decide, by decide, ?_⟩
  intro ops hops
  exact (drained_no_outputs defaultConfig _ (by decide) ops hops).1

/-- C2 amended: with a positive `inSequenceLength`, no accepted item
is ever duplicated or returned spuriously: the multiset of items
returned by Dequeue/Remove plus the items still inside (store and held
slot) equals the multiset of accepted items.  (Eventual delivery,
however, can fail: an item left in the held slot after the store
drains is never returned, as the counterexample shows.) -/
theorem C2_conservation (cfg : Config) (ops : List Op)
    (hlen : 1 ≤ cfg.inSequenceLength) :
    toMS (outputs cfg initState ops) + contents (run cfg initState ops)
      = toMS (accepted cfg initState ops) := by
  have h := conservation_run cfg hlen ops initState (fun hn => absurd rfl hn)
  simpa [contents, initState, toMS_nil] using h

/-- Witness for C2 amended: one accepted item, one dequeue. -/
theorem C2_conservation_witness :
    toMS (outputs defaultConfig initState [Op.enq pA, Op.deq]) +
        contents (run defaultConfig initState [Op.enq pA, Op.deq]) =
      toMS (accepted defaultConfig initState [Op.enq pA, Op.deq]) :=
  C2_conservation defaultConfig [Op.enq pA, Op.deq] (by decide)

/-- C4 counterexample: after enqueueing a 5-byte item and removing it,
the byte counter still reads 5 while store and held slot are empty —
`Remove` does not adjust the byte-accounting counter. -/
theorem C4_counterexample :
    (run defaultConfig initState [Op.enq pG, Op.rem]).bytesInQueue ≠
      sumSizes (run defaultConfig initState [Op.enq pG, Op.rem]).packets +
        heldSize (run defaultConfig initState [Op.enq pG, Op.rem]) := by
  decide

/-- C4 amended: after any sequence of Enqueue and Dequeue operations
(no Remove), under a configuration with positive `inSequenceLength`,
the byte counter equals the sum of the sizes of the items in the store
plus the size of the held item, if any. -/
theorem C4_bytes_no_remove (cfg : Config) (ops : List Op)
    (hlen : 1 ≤ cfg.inSequenceLength) (hnr : Op.rem ∉ ops) :
    (run cfg initState ops).bytesInQueue =
      sumSizes (run cfg initState ops).packets + heldSize (run cfg initState ops) := by
  have aux : ∀ (l : List Op) (s : QState), Op.rem ∉ l → HeldInv s → BytesInv s →
      BytesInv (run cfg s l) := by
    intro l
    induction l with
    | nil => intro s _ _ hb; exact hb
    | cons op l ih =>
      intro s hmem hh hb
      have hop : op ≠ Op.rem := fun he => hmem (he ▸ List.mem_cons_self op l)
      exact ih (step cfg s op) (fun hm => hmem (List.mem_cons_of_mem op hm))
        (heldInv_step cfg s op hh)
        (bytesInv_step cfg s op hlen hop hh hb)
  exact aux ops initState hnr (fun hn => absurd rfl hn) rfl

/-- Witness for C4 amended. -/
theorem C4_bytes_witness :
    (run defaultConfig initState [Op.enq pA, Op.enq pB, Op.deq]).bytesInQueue =
      sumSizes (run defaultConfig initState [Op.enq pA, Op.enq pB, Op.deq]).packets +
        heldSize (run defaultConfig initState [Op.enq pA, Op.enq pB, Op.deq]) :=
  C4_bytes_no_remove defaultConfig [Op.enq pA, Op.enq pB, Op.deq] (by decide) (by decide)

/-- C6: in every reachable state (any operation sequence from the
initial state, `reorderDepth` positive), `m_inSequenceCount` — the
number of consecutive normal releases since the last hold event —
never exceeds `inSequenceLength`, and `m_holdCount` — the number of
normal releases performed while the current held item waits — never
exceeds `reorderDepth`. -/
theorem C6_bounded_reordering (cfg : Config) (ops : List Op)
    (hdep : 1 ≤ cfg.reorderDepth) :
    (run cfg initState ops).inSequenceCount ≤ cfg.inSequenceLength ∧
    (run cfg initState ops).holdCount ≤ cfg.reorderDepth := by
  have aux : ∀ (l : List Op) (s : QState),
      s.inSequenceCount ≤ cfg.inSequenceLength → s.holdCount ≤ cfg.reorderDepth →
      (run cfg s l).inSequenceCount ≤ cfg.inSequenceLength ∧
      (run cfg s l).holdCount ≤ cfg.reorderDepth := by
    intro l
    induction l with
    | nil => intro s h1 h2; exact ⟨h1, h2⟩
    | cons op l ih =>
      intro s h1 h2
      obtain ⟨g1, g2⟩ := countInv_step cfg s op hdep h1 h2
      exact ih (step cfg s op) g1 g2
  exact aux ops initState (Nat.zero_le _) (Nat.zero_le _)

/-- Witness for C6 at the default configuration. -/
theorem C6_bounded_witness :
    (run defaultConfig initState stuckOps).inSequenceCount ≤
        defaultConfig.inSequenceLength ∧
    (run defaultConfig initState stuckOps).holdCount ≤ defaultConfig.reorderDepth :=
  C6_bounded_reordering defaultConfig stuckOps (by decide)

/-- C10: in every reachable state, if the held slot is empty then
`m_holdCount` is zero; and at the moment a hold is created (the
assignment block `holdStep`, lines 180-184) both `m_holdCount` and
`m_inSequenceCount` are zero. -/
theorem C10_counter_resets (cfg : Config) (ops : List Op) (front : Pkt)
    (rest : List Pkt) :
    ((run cfg initState ops).held = none → (run cfg initState ops).holdCount = 0) ∧
    (holdStep (run cfg initState ops) front rest).holdCount = 0 ∧
    (holdStep (run cfg initState ops) front rest).inSequenceCount = 0 := by
  refine ⟨?_, rfl, rfl⟩
  have aux : ∀ (l : List Op) (s : QState), HoldZeroInv s → HoldZeroInv (run cfg s l) := by
    intro l
    induction l with
    | nil => intro s h; exact h
    | cons op l ih => intro s h; exact ih (step cfg s op) (holdZero_step cfg s op h)
  exact aux ops initState (fun _ => rfl)

/-- Witness for C10. -/
theorem C10_counter_witness :
    (run defaultConfig initState [Op.enq pA, Op.deq]).holdCount = 0 :=
  (C10_counter_resets defaultConfig [Op.enq pA, Op.deq] pB []).1 (by decide)

end ReorderQueue
